import Mathlib

/-!
Verification of the watch-together server core (room registry, control-mode
arbiter, playback clock model, sync broadcaster bookkeeping, signaling relay)
against its natural-language specification.

The JavaScript sources under `src/server` are shallowly embedded: JS numbers
become rationals (`ℚ`), `Date.now()` instants are passed explicitly, JS `Map`s
become association lists with first-match lookup/update/delete (a `Map` never
holds a duplicate key, and iteration order is insertion order), and fallible
operations return explicit result values.
-/

set_option linter.unusedVariables false

namespace WatchTogether

/-- Authoritative playback clock of a room (`RoomManager.createRoom`'s
`playbackState` in src/server/roomManager.js).  `playbackTime` is in seconds,
`lastUpdateTimestamp` is a `Date.now()` wall-clock instant in milliseconds,
`playbackRate` is the playback speed multiplier. -/
structure PlaybackState where
  playbackTime : ℚ
  isPlaying : Bool
  lastUpdateTimestamp : ℚ
  playbackRate : ℚ
deriving DecidableEq, Repr

/-- A participant record as stored in `room.participants`
(src/server/roomManager.js). -/
structure Participant where
  socketId : String
  nickname : String
  isHost : Bool
deriving DecidableEq, Repr

/-- A room object (src/server/roomManager.js `createRoom`).  The JS
`participants` `Map` is embedded as a list of records in insertion order;
the socket id key is stored inside each record. -/
structure Room where
  roomCode : String
  hostSocketId : String
  participants : List Participant
  controlMode : String
  playbackState : PlaybackState
  createdAt : ℚ
deriving DecidableEq, Repr

/-! ## Playback clock model (src/server/syncEngine.js) -/

/-- `SyncEngine.calculateCurrentPlaybackState`: project a stored clock to the
instant `now`.  `Date.now()` instants are milliseconds, so the elapsed time is
divided by 1000 to convert to seconds before multiplying by the rate. -/
def calculateCurrentPlaybackState (playbackState : PlaybackState) (now : ℚ) :
    PlaybackState :=
  if playbackState.isPlaying = false then playbackState
  else
    let elapsed := (now - playbackState.lastUpdateTimestamp) / 1000
    let currentTime := playbackState.playbackTime + elapsed * playbackState.playbackRate
    { playbackState with playbackTime := currentTime }

/-- `SyncEngine.calculateDrift`: absolute difference between the client's and
the server's playback positions. -/
def calculateDrift (clientTime serverTime : ℚ) : ℚ :=
  |clientTime - serverTime|

/-- Result of `SyncEngine.getCorrectionStrategy`: the `seek` strategy carries
no `adjustment` field, hence the `Option`. -/
structure CorrectionStrategy where
  type : String
  adjustment : Option ℚ
deriving DecidableEq, Repr

/-- `SyncEngine.getCorrectionStrategy` (src/server/syncEngine.js): drift below
0.3 s yields a gradual strategy whose rate adjustment is 0.95/1.05 only when
the drift strictly exceeds 0.1 s, and 1.0 otherwise; drift of 0.3 s or more
yields a hard seek. -/
def getCorrectionStrategy (drift clientTime serverTime : ℚ) : CorrectionStrategy :=
  if drift < 3/10 then
    { type := "gradual"
      adjustment := some (if drift > 1/10 then
          (if clientTime > serverTime then 95/100 else 105/100)
        else 1) }
  else
    { type := "seek", adjustment := none }

/-- C4: projecting a playback clock to an instant `t ≥ lastUpdateTimestamp`
returns the clock unchanged when paused, returns
`position + elapsedSeconds * rate` when playing (with
`elapsedSeconds = (t - lastUpdateTimestamp) / 1000`, the instants being
milliseconds), and the projection is monotonically non-decreasing in `t`
while playing with a positive rate. -/
theorem calculateCurrentPlaybackState_spec (ps : PlaybackState) (t u : ℚ)
    (hle : ps.lastUpdateTimestamp ≤ t) :
    (ps.isPlaying = false → calculateCurrentPlaybackState ps t = ps) ∧
    (ps.isPlaying = true →
      (calculateCurrentPlaybackState ps t).playbackTime
        = ps.playbackTime + (t - ps.lastUpdateTimestamp) / 1000 * ps.playbackRate) ∧
    (ps.isPlaying = true → 0 < ps.playbackRate → t ≤ u →
      (calculateCurrentPlaybackState ps t).playbackTime
        ≤ (calculateCurrentPlaybackState ps u).playbackTime) := by
  refine ⟨?_, ?_, ?_⟩
  · intro h
    simp [calculateCurrentPlaybackState, h]
  · intro h
    simp [calculateCurrentPlaybackState, h]
  · intro h hrate htu
    simp only [calculateCurrentPlaybackState, h]
    have hdiv : (t - ps.lastUpdateTimestamp) / 1000 ≤ (u - ps.lastUpdateTimestamp) / 1000 := by
      apply div_le_div_of_nonneg_right ?_ ?_ <;> first
        | linarith
        | norm_num
    have := mul_le_mul_of_nonneg_right hdiv (le_of_lt hrate)
    simp only [Bool.true_eq_false, if_false]
    linarith

/-- Witness for `calculateCurrentPlaybackState_spec` at a concrete clock:
position 2 s, playing, rate 1, last update at instant 1000 ms, projected to
instants 2000 ms and 3000 ms. -/
theorem calculateCurrentPlaybackState_spec_witness :
    (calculateCurrentPlaybackState ⟨2, true, 1000, 1⟩ 2000).playbackTime
      ≤ (calculateCurrentPlaybackState ⟨2, true, 1000, 1⟩ 3000).playbackTime :=
  (calculateCurrentPlaybackState_spec ⟨2, true, 1000, 1⟩ 2000 3000
      (by norm_num)).2.2 rfl (by norm_num) (by norm_num)

/-- C5 counterexample: at drift exactly 0.1 s (client at 0, server at 0.1 s,
so the client is behind the projection) the code returns a gradual strategy
with adjustment 1.0 — not the 1.05 speed-up multiplier the claim asserts. -/
theorem getCorrectionStrategy_boundary_counterexample :
    calculateDrift 0 (1/10) = 1/10 ∧
    getCorrectionStrategy (1/10) 0 (1/10) = ⟨"gradual", some 1⟩ ∧
    some (1 : ℚ) ≠ some (105/100 : ℚ) := by
  refine ⟨?_, ?_, by norm_num⟩
  · simp [calculateDrift]
  · norm_num [getCorrectionStrategy]

/-- C5 (amended): with `drift = |client - server|`, drift at most 0.1 s yields
the gradual strategy with adjustment 1.0 (no rate change, i.e. in-sync
behaviour — in particular at exactly 0.1 s); drift strictly between 0.1 s and
0.3 s yields a gradual strategy with multiplier 1.05 when the client is behind
the server projection and 0.95 when ahead; drift of 0.3 s or more yields a
hard seek. -/
theorem getCorrectionStrategy_spec (clientTime serverTime drift : ℚ)
    (hd : drift = calculateDrift clientTime serverTime) :
    (drift ≤ 1/10 →
      getCorrectionStrategy drift clientTime serverTime = ⟨"gradual", some 1⟩) ∧
    (1/10 < drift → drift < 3/10 → clientTime < serverTime →
      getCorrectionStrategy drift clientTime serverTime = ⟨"gradual", some (105/100)⟩) ∧
    (1/10 < drift → drift < 3/10 → serverTime < clientTime →
      getCorrectionStrategy drift clientTime serverTime = ⟨"gradual", some (95/100)⟩) ∧
    (3/10 ≤ drift →
      getCorrectionStrategy drift clientTime serverTime = ⟨"seek", none⟩) := by
  refine ⟨?_, ?_, ?_, ?_⟩
  · intro h1
    have hlt : drift < 3/10 := by linarith
    have hng : ¬ drift > 1/10 := by linarith
    rw [getCorrectionStrategy, if_pos hlt, if_neg hng]
  · intro h1 h3 hbehind
    have hna : ¬ clientTime > serverTime := by linarith
    rw [getCorrectionStrategy, if_pos h3, if_pos h1, if_neg hna]
  · intro h1 h3 hahead
    have ha : clientTime > serverTime := hahead
    rw [getCorrectionStrategy, if_pos h3, if_pos h1, if_pos ha]
  · intro h3
    have hns : ¬ drift < 3/10 := by linarith
    rw [getCorrectionStrategy, if_neg hns]

/-- Witness for `getCorrectionStrategy_spec` at drift 0.2 s with the client
behind the server: speed-up multiplier 1.05. -/
theorem getCorrectionStrategy_spec_witness :
    getCorrectionStrategy (2/10) 0 (2/10) = ⟨"gradual", some (105/100)⟩ :=
  (getCorrectionStrategy_spec 0 (2/10) (2/10)
      (by simp [calculateDrift]
          rw [abs_of_nonneg] <;> norm_num)).2.1
    (by norm_num) (by norm_num) (by norm_num)

/-! ## Room registry (src/server/roomManager.js)

The `rooms` JS `Map` (room code → room object) is embedded as a `List Room`
in insertion order, the code being stored in each room.  `Map.get`,
in-place mutation of the stored object, and `Map.delete` become first-match
lookup, first-match update and first-match removal; a JS `Map` never holds a
duplicate key, so first-match semantics coincide with the `Map`'s. -/

/-- `this.rooms.get(roomCode)`: first room carrying the code. -/
def getRoom : List Room → String → Option Room
  | [], _ => none
  | r :: rs, roomCode => if r.roomCode = roomCode then some r else getRoom rs roomCode

/-- In-place mutation of the room object stored under `roomCode`. -/
def updateRoom : List Room → String → (Room → Room) → List Room
  | [], _, _ => []
  | r :: rs, roomCode, f =>
    if r.roomCode = roomCode then f r :: rs else r :: updateRoom rs roomCode f

/-- `this.rooms.delete(roomCode)`. -/
def removeRoom : List Room → String → List Room
  | [], _ => []
  | r :: rs, roomCode => if r.roomCode = roomCode then rs else r :: removeRoom rs roomCode

/-- `room.participants.set(socketId, record)`: replace the record stored under
the socket id in place, or append a fresh entry when the id is absent. -/
def setParticipant : List Participant → Participant → List Participant
  | [], p => [p]
  | q :: qs, p => if q.socketId = p.socketId then p :: qs else q :: setParticipant qs p

/-- `room.participants.delete(socketId)`. -/
def removeParticipant : List Participant → String → List Participant
  | [], _ => []
  | q :: qs, socketId =>
    if q.socketId = socketId then qs else q :: removeParticipant qs socketId

/-- `room.participants.has(socketId)`. -/
def hasParticipant : List Participant → String → Bool
  | [], _ => false
  | q :: qs, socketId =>
    if q.socketId = socketId then true else hasParticipant qs socketId

/-- Socket ids of a participant map, in insertion order. -/
def participantIds (ps : List Participant) : List String :=
  ps.map Participant.socketId

/-- Room codes currently registered, in insertion order. -/
def roomCodes (rooms : List Room) : List String :=
  rooms.map Room.roomCode

/-- `RoomManager.MAX_PARTICIPANTS`. -/
def MAX_PARTICIPANTS : Nat := 20

/-- The room object built by `RoomManager.createRoom`: the host is the sole
participant (flagged `isHost`), control mode defaults to host-only, and the
clock is at rest at position 0. -/
def newRoom (roomCode hostSocketId hostNickname : String) (now : ℚ) : Room :=
  { roomCode := roomCode
    hostSocketId := hostSocketId
    participants := [{ socketId := hostSocketId, nickname := hostNickname, isHost := true }]
    controlMode := "host-only"
    playbackState :=
      { playbackTime := 0, isPlaying := false, lastUpdateTimestamp := now, playbackRate := 1 }
    createdAt := now }

/-- `RoomManager.createRoom`: register the new room (`this.rooms.set` appends
a fresh key at the end of the `Map`'s iteration order).  The code produced by
`generateRoomCode` is passed explicitly; its collision-freeness is a
hypothesis of the step relation below. -/
def createRoom (rooms : List Room) (roomCode hostSocketId hostNickname : String)
    (now : ℚ) : List Room :=
  rooms ++ [newRoom roomCode hostSocketId hostNickname now]

/-- Outcome of `RoomManager.joinRoom`. -/
inductive JoinResult
  | ok (room : Room)
  | err (msg : String)
deriving DecidableEq, Repr

/-- `RoomManager.joinRoom`: unknown code and full room are rejected; otherwise
the caller is stored under its socket id with `isHost: false` (overwriting any
record already stored under that id, as `Map.set` does). -/
def joinRoom (rooms : List Room) (roomCode socketId nickname : String) :
    JoinResult × List Room :=
  match getRoom rooms roomCode with
  | none => (.err "Room not found", rooms)
  | some room =>
    if room.participants.length ≥ MAX_PARTICIPANTS then
      (.err "Room is full", rooms)
    else
      let record : Participant :=
        { socketId := socketId, nickname := nickname, isHost := false }
      let joined := fun (r : Room) =>
        { r with participants := setParticipant r.participants record }
      (.ok (joined room), updateRoom rooms roomCode joined)

/-- Outcome of `RoomManager.leaveRoom`. -/
inductive LeaveResult
  | ok (room : Room)
  | roomDeleted
  | err (msg : String)
deriving DecidableEq, Repr

/-- `RoomManager.leaveRoom`: delete the member; when the departing member was
the host, either promote the first remaining participant (mutating its
`isHost` flag in place and re-pointing `hostSocketId`) or, with nobody left,
delete the room from the registry. -/
def leaveRoom (rooms : List Room) (roomCode socketId : String) :
    LeaveResult × List Room :=
  match getRoom rooms roomCode with
  | none => (.err "Room not found", rooms)
  | some room =>
    let remaining := removeParticipant room.participants socketId
    if socketId = room.hostSocketId then
      match remaining with
      | [] => (.roomDeleted, removeRoom rooms roomCode)
      | newHost :: rest =>
        let room' := { room with
          participants := { newHost with isHost := true } :: rest
          hostSocketId := newHost.socketId }
        (.ok room', updateRoom rooms roomCode (fun _ => room'))
    else
      let room' := { room with participants := remaining }
      (.ok room', updateRoom rooms roomCode (fun _ => room'))

/-- `RoomManager.getRoomBySocketId`: first room (in registry iteration order)
holding the socket id among its participants. -/
def getRoomBySocketId : List Room → String → Option Room
  | [], _ => none
  | r :: rs, socketId =>
    if hasParticipant r.participants socketId = true then some r
    else getRoomBySocketId rs socketId

/-- `RoomManager.updatePlaybackState`: overwrite the room's clock with the
given tuple, stamping `lastUpdateTimestamp = Date.now()`.  (The caller in
`SyncEngine.handlePlaybackControl` ignores the returned acknowledgement, so
only the registry effect is modelled.) -/
def updatePlaybackState (rooms : List Room) (roomCode : String)
    (playbackState : PlaybackState) (now : ℚ) : List Room :=
  updateRoom rooms roomCode (fun r =>
    { r with playbackState := { playbackState with lastUpdateTimestamp := now } })

/-- `RoomManager.changeControlMode`. -/
def changeControlMode (rooms : List Room) (roomCode mode : String) :
    Option String × List Room :=
  match getRoom rooms roomCode with
  | none => (some "Room not found", rooms)
  | some _ => (none, updateRoom rooms roomCode (fun r => { r with controlMode := mode }))

/-- `RoomManager.canControl`: in host-only mode only the host may control;
in any other mode everyone may. -/
def canControl (rooms : List Room) (roomCode socketId : String) : Bool :=
  match getRoom rooms roomCode with
  | none => false
  | some room =>
    if room.controlMode = "host-only" then
      if socketId = room.hostSocketId then true else false
    else true

/-! ## Control mode manager (src/server/controlMode.js) -/

/-- Outcome of `ControlModeManager.changeMode`. -/
inductive ModeResult
  | ok (controlMode : String)
  | err (msg : String)
deriving DecidableEq, Repr

/-- `ControlModeManager.changeMode`: only the host may switch modes, and only
to `host-only` or `shared`; on success the registry's mode is overwritten. -/
def changeMode (rooms : List Room) (roomCode socketId newMode : String) :
    ModeResult × List Room :=
  match getRoom rooms roomCode with
  | none => (.err "Room not found", rooms)
  | some room =>
    if ¬ socketId = room.hostSocketId then
      (.err "Only host can change control mode", rooms)
    else if ¬ newMode = "host-only" ∧ ¬ newMode = "shared" then
      (.err "Invalid control mode", rooms)
    else
      match changeControlMode rooms roomCode newMode with
      | (none, rooms') => (.ok newMode, rooms')
      | (some msg, rooms') => (.err msg, rooms')

/-! ## Playback control (src/server/syncEngine.js `handlePlaybackControl`) -/

/-- Outcome of `SyncEngine.handlePlaybackControl`: on success the handler
returns the freshly built tuple (before `updatePlaybackState` re-stamps the
stored copy's `lastUpdateTimestamp`). -/
inductive ControlResult
  | ok (playbackState : PlaybackState)
  | err (msg : String)
deriving DecidableEq, Repr

/-- JS `x || fallback` on a number `x`: `0` is falsy, so it selects the
fallback. -/
def jsNumOr (x fallback : ℚ) : ℚ :=
  if x = 0 then fallback else x

/-- `SyncEngine.handlePlaybackControl`: reject unknown rooms, then
unauthorized members (`canControl`), then build the new tuple for
`play`/`pause`/`seek` (any other action is rejected as invalid before the
registry is touched) and commit it through `updatePlaybackState`. -/
def handlePlaybackControl (rooms : List Room) (roomCode socketId action : String)
    (dataPlaybackTime : ℚ) (now : ℚ) : ControlResult × List Room :=
  match getRoom rooms roomCode with
  | none => (.err "Room not found", rooms)
  | some room =>
    if canControl rooms roomCode socketId = false then
      (.err "No control permission", rooms)
    else if action = "play" then
      let newPS := { room.playbackState with
        isPlaying := true
        playbackTime := jsNumOr dataPlaybackTime room.playbackState.playbackTime }
      (.ok newPS, updatePlaybackState rooms roomCode newPS now)
    else if action = "pause" then
      let newPS := { room.playbackState with
        isPlaying := false
        playbackTime := jsNumOr dataPlaybackTime room.playbackState.playbackTime }
      (.ok newPS, updatePlaybackState rooms roomCode newPS now)
    else if action = "seek" then
      let newPS := { room.playbackState with playbackTime := dataPlaybackTime }
      (.ok newPS, updatePlaybackState rooms roomCode newPS now)
    else
      (.err "Invalid action", rooms)

/-! ## Sync broadcaster bookkeeping (src/server/syncEngine.js) -/

/-- The `SyncEngine`'s interval bookkeeping: `intervals` embeds the
`Map` room code → interval handle, `nextTimer` models `setInterval`'s supply
of fresh timer handles. -/
structure SyncEngineState where
  intervals : List (String × Nat)
  nextTimer : Nat
deriving DecidableEq, Repr

/-- `this.intervals.get(roomCode)`. -/
def lookupInterval : List (String × Nat) → String → Option Nat
  | [], _ => none
  | (code, timer) :: rest, roomCode =>
    if code = roomCode then some timer else lookupInterval rest roomCode

/-- `this.intervals.delete(roomCode)`. -/
def removeInterval : List (String × Nat) → String → List (String × Nat)
  | [], _ => []
  | (code, timer) :: rest, roomCode =>
    if code = roomCode then rest else (code, timer) :: removeInterval rest roomCode

/-- `SyncEngine.startSync`: a no-op when a broadcast task for the room is
already running; otherwise register a fresh `setInterval` handle under the
room code. -/
def startSync (s : SyncEngineState) (roomCode : String) : SyncEngineState :=
  match lookupInterval s.intervals roomCode with
  | some _ => s
  | none =>
    { intervals := s.intervals ++ [(roomCode, s.nextTimer)]
      nextTimer := s.nextTimer + 1 }

/-- `SyncEngine.stopSync`: clear the room's interval (if any) and drop its
map entry. -/
def stopSync (s : SyncEngineState) (roomCode : String) : SyncEngineState :=
  match lookupInterval s.intervals roomCode with
  | some _ => { s with intervals := removeInterval s.intervals roomCode }
  | none => s

/-- Room codes currently holding a broadcast task. -/
def intervalCodes (s : SyncEngineState) : List String :=
  s.intervals.map Prod.fst

/-! ## Socket layer (src/server/socket.js) -/

/-- Combined server state: the `RoomManager` registry plus the `SyncEngine`
interval bookkeeping. -/
structure ServerState where
  rooms : List Room
  sync : SyncEngineState
deriving DecidableEq, Repr

/-- `handleLeaveRoom` (src/server/socket.js): look the socket up in the
registry, run `RoomManager.leaveRoom` on its room, and when the room was
deleted also stop its broadcast task. -/
def handleLeaveRoom (srv : ServerState) (socketId : String) : ServerState :=
  match getRoomBySocketId srv.rooms socketId with
  | none => srv
  | some room =>
    let result := leaveRoom srv.rooms room.roomCode socketId
    match result.1 with
    | .roomDeleted => { rooms := result.2, sync := stopSync srv.sync room.roomCode }
    | _ => { rooms := result.2, sync := srv.sync }

/-- A signaling payload as re-emitted by the `signal:offer` / `signal:answer`
/ `signal:ice` handlers. -/
structure SignalMessage where
  fromSocketId : String
  payload : String
  roomCode : String
deriving DecidableEq, Repr

/-- The `signal:offer` handler (src/server/socket.js, identically structured
for `signal:answer` and `signal:ice`): `socket.to(targetSocketId).emit(...)`
— the payload is re-emitted to the named target socket unconditionally; the
room registry is in scope but never consulted.  Returns the list of
(destination socket, message) deliveries. -/
def handleSignalOffer (rooms : List Room) (senderSocketId targetSocketId : String)
    (payload roomCode : String) : List (String × SignalMessage) :=
  [(targetSocketId,
    { fromSocketId := senderSocketId, payload := payload, roomCode := roomCode })]

/-- Modelled from the spec (§4.5 Signaling Relay): the anti-spoofing predicate
"`toMemberId` is a current member of some room the `fromMemberId` also belongs
to".  Stated only for comparison with `handleSignalOffer`; no code under
src/server computes it. -/
def specSharesRoom : List Room → String → String → Bool
  | [], _, _ => false
  | r :: rs, fromId, toId =>
    (hasParticipant r.participants fromId && hasParticipant r.participants toId)
      || specSharesRoom rs fromId toId

/-! ## Reachability of registry states -/

/-- One registry operation, as invocable through the socket handlers:
`createRoom` (with a collision-free code, which `generateRoomCode`
guarantees by re-rolling), `joinRoom`, or `leaveRoom`. -/
inductive RegistryStep : List Room → List Room → Prop
  | create (rooms : List Room) (roomCode hostSocketId hostNickname : String) (now : ℚ)
      (hfresh : getRoom rooms roomCode = none) :
      RegistryStep rooms (createRoom rooms roomCode hostSocketId hostNickname now)
  | join (rooms : List Room) (roomCode socketId nickname : String) :
      RegistryStep rooms (joinRoom rooms roomCode socketId nickname).2
  | leave (rooms : List Room) (roomCode socketId : String) :
      RegistryStep rooms (leaveRoom rooms roomCode socketId).2

/-- Registry states reachable from the empty registry by registry
operations. -/
inductive Reachable : List Room → Prop
  | init : Reachable []
  | step {s s' : List Room} : Reachable s → RegistryStep s s' → Reachable s'

/-- A registry step whose `joinRoom` is never invoked with the target room's
current host id (the restriction under which the single-host invariant is
provable). -/
inductive SafeStep : List Room → List Room → Prop
  | create (rooms : List Room) (roomCode hostSocketId hostNickname : String) (now : ℚ)
      (hfresh : getRoom rooms roomCode = none) :
      SafeStep rooms (createRoom rooms roomCode hostSocketId hostNickname now)
  | join (rooms : List Room) (roomCode socketId nickname : String)
      (hnothost : ∀ room, getRoom rooms roomCode = some room →
        ¬ socketId = room.hostSocketId) :
      SafeStep rooms (joinRoom rooms roomCode socketId nickname).2
  | leave (rooms : List Room) (roomCode socketId : String) :
      SafeStep rooms (leaveRoom rooms roomCode socketId).2

/-- Registry states reachable when no join ever reuses the current host id. -/
inductive SafeReachable : List Room → Prop
  | init : SafeReachable []
  | step {s s' : List Room} : SafeReachable s → SafeStep s s' → SafeReachable s'

/-! ## Example states used by concrete witnesses -/

/-- A one-room registry whose host `hostA` has been joined by `guestB`. -/
def demoRooms : List Room :=
  (joinRoom (createRoom [] "ROOM01" "hostA" "Host" 0) "ROOM01" "guestB" "Guest").2

/-- The room object stored in `demoRooms`. -/
def demoRoom : Room :=
  { roomCode := "ROOM01"
    hostSocketId := "hostA"
    participants := [⟨"hostA", "Host", true⟩, ⟨"guestB", "Guest", false⟩]
    controlMode := "host-only"
    playbackState := { playbackTime := 0, isPlaying := false,
                       lastUpdateTimestamp := 0, playbackRate := 1 }
    createdAt := 0 }

/-- A fresh one-room registry after its host seeks to position 5 s at instant
500 ms. -/
def seekRooms : List Room :=
  (handlePlaybackControl [newRoom "ROOM01" "hostA" "Host" 0] "ROOM01" "hostA"
    "seek" 5 500).2

/-- Two rooms with no common member. -/
def disjointRooms : List Room :=
  [newRoom "ROOMAA" "alice" "Alice" 0, newRoom "ROOMBB" "bob" "Bob" 0]

/-- C3: in a room in host-only mode, a playback-control request (`play`,
`pause`, `seek` — indeed any action) from a socket other than the host is
answered with the permission error, and the registry, in particular the
room's clock tuple `(playbackTime, isPlaying, playbackRate,
lastUpdateTimestamp)`, is returned exactly unchanged. -/
theorem hostOnly_control_forbidden (rooms : List Room)
    (roomCode socketId action : String) (dataPlaybackTime now : ℚ) (room : Room)
    (hroom : getRoom rooms roomCode = some room)
    (hmode : room.controlMode = "host-only")
    (hnothost : ¬ socketId = room.hostSocketId) :
    handlePlaybackControl rooms roomCode socketId action dataPlaybackTime now
      = (.err "No control permission", rooms) := by
  have hcc : canControl rooms roomCode socketId = false := by
    simp [canControl, hroom, hmode, hnothost]
  simp [handlePlaybackControl, hroom, hcc]

/-- Witness for `hostOnly_control_forbidden`: guest `guestB` tries to play in
the host-only room of `demoRooms`. -/
theorem hostOnly_control_forbidden_witness :
    handlePlaybackControl demoRooms "ROOM01" "guestB" "play" 5 1000
      = (.err "No control permission", demoRooms) :=
  hostOnly_control_forbidden demoRooms "ROOM01" "guestB" "play" 5 1000 demoRoom
    (by decide) (by decide) (by decide)

/-- C6 (code bug): after the host seeks the room of `seekRooms` to 5 s, a
`play` request explicitly carrying position 0 succeeds but keeps the clock at
position 5 — in `data.playbackTime || room.playbackState.playbackTime` the
requested 0 is falsy, so the fallback wins.  The success payload below (the
one echoed to the room by the `playback:play` handler) carries position 5,
not the requested 0. -/
theorem play_at_position_zero_bug :
    (handlePlaybackControl seekRooms "ROOM01" "hostA" "play" 0 600).1
      = ControlResult.ok { playbackTime := 5, isPlaying := true,
                           lastUpdateTimestamp := 500, playbackRate := 1 } ∧
    (5 : ℚ) ≠ 0 := by
  refine ⟨by decide, by norm_num⟩

/-- C7 counterexample: the host — authorized, as the second conjunct shows —
requests `setRate`; the handler rejects it as `Invalid action` and the
registry is untouched: there is no `setRate` case in
`handlePlaybackControl`. -/
theorem setRate_counterexample :
    handlePlaybackControl [newRoom "ROOM01" "hostA" "Host" 0] "ROOM01" "hostA"
        "setRate" (3/2) 600
      = (.err "Invalid action", [newRoom "ROOM01" "hostA" "Host" 0]) ∧
    canControl [newRoom "ROOM01" "hostA" "Host" 0] "ROOM01" "hostA" = true := by
  refine ⟨by decide, by decide⟩

/-- C7 (amended): a `setRate` control request from any member — even one
authorized to control playback — is rejected as `Invalid action` and leaves
the registry (hence the clock's rate) unchanged; only `play`, `pause` and
`seek` are supported. -/
theorem setRate_invalid_action (rooms : List Room) (roomCode socketId : String)
    (dataPlaybackTime now : ℚ) (room : Room)
    (hroom : getRoom rooms roomCode = some room)
    (hcan : canControl rooms roomCode socketId = true) :
    handlePlaybackControl rooms roomCode socketId "setRate" dataPlaybackTime now
      = (.err "Invalid action", rooms) := by
  simp [handlePlaybackControl, hroom, hcan]

/-- Witness for `setRate_invalid_action`: the host of a fresh room. -/
theorem setRate_invalid_action_witness :
    handlePlaybackControl [newRoom "ROOM01" "hostA" "Host" 0] "ROOM01" "hostA"
        "setRate" (3/2) 700
      = (.err "Invalid action", [newRoom "ROOM01" "hostA" "Host" 0]) :=
  setRate_invalid_action _ _ _ _ _ (newRoom "ROOM01" "hostA" "Host" 0)
    (by decide) (by decide)

/-- C8 counterexample: `alice` and `bob` share no room in `disjointRooms`
(the spec's anti-spoofing predicate is false), yet the `signal:offer` handler
still delivers the payload to `bob`. -/
theorem signal_relay_counterexample :
    specSharesRoom disjointRooms "alice" "bob" = false ∧
    handleSignalOffer disjointRooms "alice" "bob" "sdp-offer" "ROOMBB"
      = [("bob", { fromSocketId := "alice", payload := "sdp-offer",
                   roomCode := "ROOMBB" })] := by
  refine ⟨by decide, rfl⟩

/-- C8 (amended): the signaling handlers forward the payload to the named
target socket unconditionally — the room registry is never consulted, so no
shared-room (anti-spoofing) check restricts delivery. -/
theorem signal_relay_unconditional (rooms : List Room)
    (senderSocketId targetSocketId payload roomCode : String) :
    handleSignalOffer rooms senderSocketId targetSocketId payload roomCode
      = [(targetSocketId,
          { fromSocketId := senderSocketId, payload := payload, roomCode := roomCode })] :=
  rfl

/-- C9: a `setMode` request from a socket other than the host is rejected
with the host-only error whatever the current mode and the requested mode,
and a request from the host carrying a mode other than `host-only` or
`shared` is rejected as invalid; in both cases the registry — hence the
room's control mode — is returned unchanged. -/
theorem changeMode_errors (rooms : List Room) (roomCode socketId newMode : String)
    (room : Room) (hroom : getRoom rooms roomCode = some room) :
    (¬ socketId = room.hostSocketId →
      changeMode rooms roomCode socketId newMode
        = (.err "Only host can change control mode", rooms)) ∧
    (¬ newMode = "host-only" → ¬ newMode = "shared" →
      changeMode rooms roomCode room.hostSocketId newMode
        = (.err "Invalid control mode", rooms)) := by
  constructor
  · intro hnh
    simp [changeMode, hroom, hnh]
  · intro h1 h2
    simp [changeMode, hroom, h1, h2]

/-- Witness for `changeMode_errors`: guest `guestB` of `demoRooms` asks for
shared mode and is refused. -/
theorem changeMode_errors_witness :
    changeMode demoRooms "ROOM01" "guestB" "shared"
      = (.err "Only host can change control mode", demoRooms) :=
  (changeMode_errors demoRooms "ROOM01" "guestB" "shared" demoRoom
    (by decide)).1 (by decide)

/-! ## Sync-task bookkeeping invariant (C10) -/

/-- One invocation of the sync engine's task bookkeeping. -/
inductive SyncOp
  | start (roomCode : String)
  | stop (roomCode : String)

/-- Run a sequence of `startSync` / `stopSync` invocations. -/
def runSyncOps : SyncEngineState → List SyncOp → SyncEngineState
  | s, [] => s
  | s, SyncOp.start roomCode :: ops => runSyncOps (startSync s roomCode) ops
  | s, SyncOp.stop roomCode :: ops => runSyncOps (stopSync s roomCode) ops

/-- The sync engine's constructor state: no intervals. -/
def initialSyncEngine : SyncEngineState :=
  { intervals := [], nextTimer := 0 }

theorem lookupInterval_eq_none (l : List (String × Nat)) (roomCode : String) :
    lookupInterval l roomCode = none ↔ roomCode ∉ l.map Prod.fst := by
  induction l with
  | nil => simp [lookupInterval]
  | cons e rest ih =>
    obtain ⟨c, t⟩ := e
    by_cases hc : c = roomCode
    · subst hc
      simp [lookupInterval]
    · simp [lookupInterval, hc, Ne.symm hc, ih]

theorem mem_removeInterval_codes {l : List (String × Nat)} {roomCode x : String}
    (h : x ∈ (removeInterval l roomCode).map Prod.fst) : x ∈ l.map Prod.fst := by
  induction l with
  | nil => simpa [removeInterval] using h
  | cons e rest ih =>
    obtain ⟨c, t⟩ := e
    by_cases hc : c = roomCode
    · simp only [removeInterval, if_pos hc] at h
      exact List.mem_cons_of_mem _ h
    · simp only [removeInterval, if_neg hc, List.map_cons, List.mem_cons] at h ⊢
      exact h.imp id ih

theorem removeInterval_nodup (l : List (String × Nat)) (roomCode : String)
    (h : (l.map Prod.fst).Nodup) : ((removeInterval l roomCode).map Prod.fst).Nodup := by
  induction l with
  | nil => simpa [removeInterval] using h
  | cons e rest ih =>
    obtain ⟨c, t⟩ := e
    simp only [List.map_cons, List.nodup_cons] at h
    by_cases hc : c = roomCode
    · simpa [removeInterval, hc] using h.2
    · simp only [removeInterval, if_neg hc, List.map_cons, List.nodup_cons]
      exact ⟨fun hmem => h.1 (mem_removeInterval_codes hmem), ih h.2⟩

theorem lookupInterval_removeInterval_self (l : List (String × Nat)) (roomCode : String)
    (h : (l.map Prod.fst).Nodup) :
    lookupInterval (removeInterval l roomCode) roomCode = none := by
  rw [lookupInterval_eq_none]
  induction l with
  | nil => simp [removeInterval]
  | cons e rest ih =>
    obtain ⟨c, t⟩ := e
    simp only [List.map_cons, List.nodup_cons] at h
    by_cases hc : c = roomCode
    · subst hc
      simpa [removeInterval] using h.1
    · simp only [removeInterval, if_neg hc, List.map_cons, List.mem_cons]
      push_neg
      exact ⟨fun he => hc he.symm, ih h.2⟩

theorem lookupInterval_stopSync (s : SyncEngineState) (roomCode : String)
    (h : (intervalCodes s).Nodup) :
    lookupInterval (stopSync s roomCode).intervals roomCode = none := by
  unfold stopSync
  cases hl : lookupInterval s.intervals roomCode with
  | none => simpa using hl
  | some timer => exact lookupInterval_removeInterval_self _ _ h

theorem startSync_nodup (s : SyncEngineState) (roomCode : String)
    (h : (intervalCodes s).Nodup) : (intervalCodes (startSync s roomCode)).Nodup := by
  unfold startSync
  cases hl : lookupInterval s.intervals roomCode with
  | some timer => exact h
  | none =>
    have hnin : roomCode ∉ s.intervals.map Prod.fst :=
      (lookupInterval_eq_none _ _).mp hl
    simp only [intervalCodes, List.map_append, List.map_cons, List.map_nil] at h ⊢
    simp only [List.nodup_append, List.nodup_cons, List.nodup_nil]
    refine ⟨h, by simp, ?_⟩
    intro x hx hx'
    simp only [List.mem_cons, List.not_mem_nil, or_false] at hx'
    exact hnin (hx' ▸ hx)

theorem stopSync_nodup (s : SyncEngineState) (roomCode : String)
    (h : (intervalCodes s).Nodup) : (intervalCodes (stopSync s roomCode)).Nodup := by
  unfold stopSync
  cases hl : lookupInterval s.intervals roomCode with
  | none => exact h
  | some timer => exact removeInterval_nodup _ _ h

theorem runSyncOps_nodup (ops : List SyncOp) :
    ∀ s : SyncEngineState, (intervalCodes s).Nodup →
      (intervalCodes (runSyncOps s ops)).Nodup := by
  induction ops with
  | nil => intro s h; exact h
  | cons op rest ih =>
    intro s h
    cases op with
    | start roomCode => exact ih _ (startSync_nodup s roomCode h)
    | stop roomCode => exact ih _ (stopSync_nodup s roomCode h)

/-- C10: (i) starting sync for a room that already has a running broadcast
task is a no-op — the existing timer is kept and no second one is registered;
(ii) stopping sync removes the room's entry from the interval map (assuming
the map holds at most one entry per code, as a JS `Map` does); (iii) after
any sequence of `startSync` / `stopSync` calls from the engine's initial
state, the interval map holds at most one timer per room code. -/
theorem sync_one_task_per_room :
    (∀ (s : SyncEngineState) (roomCode : String) (timer : Nat),
      lookupInterval s.intervals roomCode = some timer → startSync s roomCode = s) ∧
    (∀ (s : SyncEngineState) (roomCode : String), (intervalCodes s).Nodup →
      lookupInterval (stopSync s roomCode).intervals roomCode = none) ∧
    (∀ ops : List SyncOp, (intervalCodes (runSyncOps initialSyncEngine ops)).Nodup) := by
  refine ⟨?_, ?_, ?_⟩
  · intro s roomCode timer h
    simp [startSync, h]
  · intro s roomCode h
    exact lookupInterval_stopSync s roomCode h
  · intro ops
    exact runSyncOps_nodup ops initialSyncEngine (by simp [intervalCodes, initialSyncEngine])

/-- Witness for `sync_one_task_per_room`: a state holding one task for
`ROOM01`; a second `startSync` keeps it unchanged, and `stopSync` clears the
entry. -/
theorem sync_one_task_per_room_witness :
    startSync ⟨[("ROOM01", 0)], 1⟩ "ROOM01" = ⟨[("ROOM01", 0)], 1⟩ ∧
    lookupInterval (stopSync ⟨[("ROOM01", 0)], 1⟩ "ROOM01").intervals "ROOM01" = none :=
  ⟨sync_one_task_per_room.1 ⟨[("ROOM01", 0)], 1⟩ "ROOM01" 0 (by decide),
   sync_one_task_per_room.2.1 ⟨[("ROOM01", 0)], 1⟩ "ROOM01" (by decide)⟩

/-! ## Participant-map lemmas -/

theorem mem_setParticipant {ps : List Participant} {q p : Participant}
    (h : p ∈ setParticipant ps q) : p = q ∨ p ∈ ps := by
  induction ps with
  | nil => simpa [setParticipant] using h
  | cons r rs ih =>
    by_cases hr : r.socketId = q.socketId
    · simp only [setParticipant, if_pos hr, List.mem_cons] at h
      rcases h with h | h
      · exact Or.inl h
      · exact Or.inr (List.mem_cons_of_mem _ h)
    · simp only [setParticipant, if_neg hr, List.mem_cons] at h
      rcases h with h | h
      · exact Or.inr (h ▸ List.mem_cons_self _ _)
      · rcases ih h with h' | h'
        · exact Or.inl h'
        · exact Or.inr (List.mem_cons_of_mem _ h')

theorem participantIds_cons (p : Participant) (ps : List Participant) :
    participantIds (p :: ps) = p.socketId :: participantIds ps := rfl

theorem participantIds_setParticipant (ps : List Participant) (q : Participant) :
    participantIds (setParticipant ps q)
      = if q.socketId ∈ participantIds ps then participantIds ps
        else participantIds ps ++ [q.socketId] := by
  induction ps with
  | nil => simp [setParticipant, participantIds]
  | cons r rs ih =>
    by_cases hr : r.socketId = q.socketId
    · have hmem : q.socketId ∈ participantIds (r :: rs) := by
        rw [participantIds_cons]
        exact List.mem_cons.mpr (Or.inl hr.symm)
      rw [if_pos hmem]
      simp only [setParticipant, if_pos hr]
      rw [participantIds_cons, participantIds_cons, hr]
    · have hne : ¬ q.socketId = r.socketId := fun he => hr he.symm
      simp only [setParticipant, if_neg hr]
      rw [participantIds_cons, participantIds_cons, ih]
      by_cases hmem : q.socketId ∈ participantIds rs
      · rw [if_pos hmem, if_pos (List.mem_cons.mpr (Or.inr hmem))]
      · rw [if_neg hmem, if_neg (by
          rw [List.mem_cons]
          push_neg
          exact ⟨hne, hmem⟩)]
        simp [List.cons_append]

theorem mem_ids_setParticipant {ps : List Participant} {q : Participant} {x : String}
    (hx : x ∈ participantIds ps) : x ∈ participantIds (setParticipant ps q) := by
  rw [participantIds_setParticipant]
  by_cases hmem : q.socketId ∈ participantIds ps
  · simpa [hmem] using hx
  · simp only [if_neg hmem]
    exact List.mem_append_left _ hx

theorem nodup_ids_setParticipant {ps : List Participant} (q : Participant)
    (h : (participantIds ps).Nodup) : (participantIds (setParticipant ps q)).Nodup := by
  rw [participantIds_setParticipant]
  by_cases hmem : q.socketId ∈ participantIds ps
  · simpa [hmem] using h
  · simp only [if_neg hmem]
    simp only [List.nodup_append, List.nodup_cons, List.nodup_nil, List.not_mem_nil,
      not_false_iff, and_true, true_and]
    exact ⟨h, by
      intro x hx hx'
      simp only [List.mem_cons, List.not_mem_nil, or_false] at hx'
      exact hmem (hx' ▸ hx)⟩

theorem mem_removeParticipant {ps : List Participant} {socketId : String} {p : Participant}
    (h : p ∈ removeParticipant ps socketId) : p ∈ ps := by
  induction ps with
  | nil => simpa [removeParticipant] using h
  | cons r rs ih =>
    by_cases hr : r.socketId = socketId
    · simp only [removeParticipant, if_pos hr] at h
      exact List.mem_cons_of_mem _ h
    · simp only [removeParticipant, if_neg hr, List.mem_cons] at h
      rcases h with h | h
      · exact h ▸ List.mem_cons_self _ _
      · exact List.mem_cons_of_mem _ (ih h)

theorem mem_ids_removeParticipant {ps : List Participant} {socketId x : String}
    (h : x ∈ participantIds (removeParticipant ps socketId)) : x ∈ participantIds ps := by
  simp only [participantIds, List.mem_map] at h ⊢
  obtain ⟨p, hp, rfl⟩ := h
  exact ⟨p, mem_removeParticipant hp, rfl⟩

theorem ids_removeParticipant_of_ne {ps : List Participant} {socketId x : String}
    (hx : x ∈ participantIds ps) (hne : ¬ x = socketId) :
    x ∈ participantIds (removeParticipant ps socketId) := by
  induction ps with
  | nil => simpa [participantIds] using hx
  | cons r rs ih =>
    simp only [participantIds, List.map_cons, List.mem_cons] at hx
    by_cases hr : r.socketId = socketId
    · rcases hx with hx | hx
      · exact absurd (hx.trans hr) hne
      · simpa [removeParticipant, if_pos hr, participantIds] using hx
    · simp only [removeParticipant, if_neg hr, participantIds, List.map_cons, List.mem_cons]
      rcases hx with hx | hx
      · exact Or.inl hx
      · exact Or.inr (ih hx)

theorem nodup_ids_removeParticipant {ps : List Participant} (socketId : String)
    (h : (participantIds ps).Nodup) :
    (participantIds (removeParticipant ps socketId)).Nodup := by
  induction ps with
  | nil => simpa [removeParticipant] using h
  | cons r rs ih =>
    simp only [participantIds, List.map_cons, List.nodup_cons] at h
    by_cases hr : r.socketId = socketId
    · simpa [removeParticipant, if_pos hr, participantIds] using h.2
    · simp only [removeParticipant, if_neg hr, participantIds, List.map_cons,
        List.nodup_cons]
      exact ⟨fun hmem => h.1 (mem_ids_removeParticipant hmem), ih h.2⟩

theorem not_mem_ids_removeParticipant_self {ps : List Participant} {socketId : String}
    (h : (participantIds ps).Nodup) :
    socketId ∉ participantIds (removeParticipant ps socketId) := by
  induction ps with
  | nil => simp [removeParticipant, participantIds]
  | cons r rs ih =>
    simp only [participantIds, List.map_cons, List.nodup_cons] at h
    by_cases hr : r.socketId = socketId
    · intro hmem
      simp only [removeParticipant, if_pos hr] at hmem
      exact h.1 (by rw [hr]; exact hmem)
    · simp only [removeParticipant, if_neg hr, participantIds, List.map_cons,
        List.mem_cons, not_or]
      exact ⟨fun he => hr he.symm, ih h.2⟩

/-! ## Registry-map lemmas -/

theorem getRoom_eq_none (rooms : List Room) (roomCode : String) :
    getRoom rooms roomCode = none ↔ roomCode ∉ roomCodes rooms := by
  induction rooms with
  | nil => simp [getRoom, roomCodes]
  | cons r rs ih =>
    by_cases hr : r.roomCode = roomCode
    · subst hr
      simp [getRoom, roomCodes]
    · simp [getRoom, roomCodes, hr, Ne.symm hr, ih]

theorem getRoom_roomCode {rooms : List Room} {roomCode : String} {room : Room}
    (h : getRoom rooms roomCode = some room) : room.roomCode = roomCode := by
  induction rooms with
  | nil => simp [getRoom] at h
  | cons r rs ih =>
    by_cases hr : r.roomCode = roomCode
    · simp only [getRoom, if_pos hr, Option.some.injEq] at h
      exact h ▸ hr
    · simp only [getRoom, if_neg hr] at h
      exact ih h

theorem getRoom_mem {rooms : List Room} {roomCode : String} {room : Room}
    (h : getRoom rooms roomCode = some room) : room ∈ rooms := by
  induction rooms with
  | nil => simp [getRoom] at h
  | cons r rs ih =>
    by_cases hr : r.roomCode = roomCode
    · simp only [getRoom, if_pos hr, Option.some.injEq] at h
      exact h ▸ List.mem_cons_self _ _
    · simp only [getRoom, if_neg hr] at h
      exact List.mem_cons_of_mem _ (ih h)

theorem mem_updateRoom {rooms : List Room} {roomCode : String} {f : Room → Room}
    {r' : Room} (h : r' ∈ updateRoom rooms roomCode f) :
    r' ∈ rooms ∨ ∃ room, getRoom rooms roomCode = some room ∧ r' = f room := by
  induction rooms with
  | nil => simpa [updateRoom] using h
  | cons r rs ih =>
    by_cases hr : r.roomCode = roomCode
    · simp only [updateRoom, if_pos hr, List.mem_cons] at h
      rcases h with h | h
      · exact Or.inr ⟨r, by simp [getRoom, hr], h⟩
      · exact Or.inl (List.mem_cons_of_mem _ h)
    · simp only [updateRoom, if_neg hr, List.mem_cons] at h
      rcases h with h | h
      · exact Or.inl (h ▸ List.mem_cons_self _ _)
      · rcases ih h with h' | ⟨room, hg, he⟩
        · exact Or.inl (List.mem_cons_of_mem _ h')
        · exact Or.inr ⟨room, by simp [getRoom, hr, hg], he⟩

theorem roomCodes_updateRoom (rooms : List Room) (roomCode : String) (f : Room → Room)
    (hf : ∀ r, r.roomCode = roomCode → (f r).roomCode = r.roomCode) :
    roomCodes (updateRoom rooms roomCode f) = roomCodes rooms := by
  induction rooms with
  | nil => simp [updateRoom]
  | cons r rs ih =>
    by_cases hr : r.roomCode = roomCode
    · simp [updateRoom, if_pos hr, roomCodes, hf r hr]
    · simp only [updateRoom, if_neg hr, roomCodes, List.map_cons]
      simpa [roomCodes] using ih

theorem mem_removeRoom {rooms : List Room} {roomCode : String} {r' : Room}
    (h : r' ∈ removeRoom rooms roomCode) : r' ∈ rooms := by
  induction rooms with
  | nil => simpa [removeRoom] using h
  | cons r rs ih =>
    by_cases hr : r.roomCode = roomCode
    · simp only [removeRoom, if_pos hr] at h
      exact List.mem_cons_of_mem _ h
    · simp only [removeRoom, if_neg hr, List.mem_cons] at h
      rcases h with h | h
      · exact h ▸ List.mem_cons_self _ _
      · exact List.mem_cons_of_mem _ (ih h)

theorem mem_roomCodes_removeRoom {rooms : List Room} {roomCode x : String}
    (h : x ∈ roomCodes (removeRoom rooms roomCode)) : x ∈ roomCodes rooms := by
  simp only [roomCodes, List.mem_map] at h ⊢
  obtain ⟨r, hr, rfl⟩ := h
  exact ⟨r, mem_removeRoom hr, rfl⟩

theorem nodup_roomCodes_removeRoom {rooms : List Room} (roomCode : String)
    (h : (roomCodes rooms).Nodup) : (roomCodes (removeRoom rooms roomCode)).Nodup := by
  induction rooms with
  | nil => simpa [removeRoom] using h
  | cons r rs ih =>
    simp only [roomCodes, List.map_cons, List.nodup_cons] at h
    by_cases hr : r.roomCode = roomCode
    · simpa [removeRoom, if_pos hr, roomCodes] using h.2
    · simp only [removeRoom, if_neg hr, roomCodes, List.map_cons, List.nodup_cons]
      exact ⟨fun hmem => h.1 (mem_roomCodes_removeRoom hmem), ih h.2⟩

theorem getRoom_removeRoom_self (rooms : List Room) (roomCode : String)
    (h : (roomCodes rooms).Nodup) :
    getRoom (removeRoom rooms roomCode) roomCode = none := by
  rw [getRoom_eq_none]
  induction rooms with
  | nil => simp [removeRoom, roomCodes]
  | cons r rs ih =>
    simp only [roomCodes, List.map_cons, List.nodup_cons] at h
    by_cases hr : r.roomCode = roomCode
    · subst hr
      simpa [removeRoom, roomCodes] using h.1
    · simp only [removeRoom, if_neg hr, roomCodes, List.map_cons, List.mem_cons, not_or]
      exact ⟨fun he => hr he.symm, ih h.2⟩

/-! ## Registry invariants -/

/-- Membership well-formedness of a room: the participant socket ids are
duplicate-free (a JS `Map` never holds a duplicate key) and the room's host
id belongs to the participant map. -/
def MembersWF (room : Room) : Prop :=
  (participantIds room.participants).Nodup ∧
  room.hostSocketId ∈ participantIds room.participants

/-- The `isHost` flag is derived: it is set exactly on the record whose
socket id equals the room's `hostSocketId`. -/
def HostFlagWF (room : Room) : Prop :=
  ∀ p ∈ room.participants, (p.isHost = true ↔ p.socketId = room.hostSocketId)

/-- Registry well-formedness backing the no-empty-rooms invariant. -/
def RegistryWF (rooms : List Room) : Prop :=
  (roomCodes rooms).Nodup ∧ ∀ room ∈ rooms, MembersWF room

/-- Registry well-formedness backing the single-host invariant. -/
def RegistryHostWF (rooms : List Room) : Prop :=
  (roomCodes rooms).Nodup ∧ ∀ room ∈ rooms, MembersWF room ∧ HostFlagWF room

theorem membersWF_newRoom (roomCode hostSocketId hostNickname : String) (now : ℚ) :
    MembersWF (newRoom roomCode hostSocketId hostNickname now) := by
  constructor <;> simp [newRoom, participantIds]

theorem hostFlagWF_newRoom (roomCode hostSocketId hostNickname : String) (now : ℚ) :
    HostFlagWF (newRoom roomCode hostSocketId hostNickname now) := by
  intro p hp
  simp only [newRoom, List.mem_singleton] at hp
  subst hp
  simp [newRoom]

theorem membersWF_setParticipant (room : Room) (q : Participant)
    (h : MembersWF room) :
    MembersWF { room with participants := setParticipant room.participants q } :=
  ⟨nodup_ids_setParticipant q h.1, mem_ids_setParticipant h.2⟩

theorem hostFlagWF_setParticipant (room : Room) (q : Participant)
    (hq : q.isHost = false) (hne : ¬ q.socketId = room.hostSocketId)
    (h : HostFlagWF room) :
    HostFlagWF { room with participants := setParticipant room.participants q } := by
  intro p hp
  rcases mem_setParticipant hp with rfl | hp'
  · constructor
    · intro hb
      rw [hq] at hb
      exact absurd hb (by simp)
    · intro hb
      exact absurd hb hne
  · exact h p hp'

theorem membersWF_removeParticipant (room : Room) (socketId : String)
    (h : MembersWF room) (hne : ¬ socketId = room.hostSocketId) :
    MembersWF { room with participants := removeParticipant room.participants socketId } :=
  ⟨nodup_ids_removeParticipant _ h.1,
   ids_removeParticipant_of_ne h.2 (fun he => hne he.symm)⟩

theorem hostFlagWF_removeParticipant (room : Room) (socketId : String)
    (h : HostFlagWF room) :
    HostFlagWF { room with participants := removeParticipant room.participants socketId } := by
  intro p hp
  exact h p (mem_removeParticipant hp)

theorem membersWF_promote (room : Room) (newHost : Participant) (rest : List Participant)
    (h : MembersWF room)
    (heq : removeParticipant room.participants room.hostSocketId = newHost :: rest) :
    MembersWF { room with
      participants := { newHost with isHost := true } :: rest
      hostSocketId := newHost.socketId } := by
  have hnd : (participantIds (newHost :: rest)).Nodup := by
    rw [← heq]
    exact nodup_ids_removeParticipant _ h.1
  exact ⟨by simpa [participantIds_cons] using hnd,
    by rw [participantIds_cons]; exact List.mem_cons_self _ _⟩

theorem hostFlagWF_promote (room : Room) (newHost : Participant) (rest : List Participant)
    (hm : MembersWF room) (hf : HostFlagWF room)
    (heq : removeParticipant room.participants room.hostSocketId = newHost :: rest) :
    HostFlagWF { room with
      participants := { newHost with isHost := true } :: rest
      hostSocketId := newHost.socketId } := by
  have hnd : (participantIds (newHost :: rest)).Nodup := by
    rw [← heq]
    exact nodup_ids_removeParticipant _ hm.1
  have hnotin : newHost.socketId ∉ participantIds rest := by
    rw [participantIds_cons] at hnd
    exact (List.nodup_cons.mp hnd).1
  have hnohost : room.hostSocketId ∉ participantIds (newHost :: rest) := by
    rw [← heq]
    exact not_mem_ids_removeParticipant_self hm.1
  intro p hp
  rcases List.mem_cons.mp hp with rfl | hp'
  · simp
  · have hpmem : p ∈ room.participants :=
      mem_removeParticipant (by rw [heq]; exact List.mem_cons_of_mem _ hp')
    have hprest : p.socketId ∈ participantIds rest := List.mem_map_of_mem _ hp'
    have hpid_ne_old : ¬ p.socketId = room.hostSocketId := by
      intro he
      apply hnohost
      rw [← he, participantIds_cons]
      exact List.mem_cons_of_mem _ hprest
    have hpid_ne_new : ¬ p.socketId = newHost.socketId := by
      intro he
      exact hnotin (he ▸ hprest)
    constructor
    · intro hb
      exact absurd ((hf p hpmem).mp hb) hpid_ne_old
    · intro hb
      exact absurd hb hpid_ne_new

theorem nodup_roomCodes_createRoom (rooms : List Room)
    (roomCode hostSocketId hostNickname : String) (now : ℚ)
    (hnd : (roomCodes rooms).Nodup) (hfresh : getRoom rooms roomCode = none) :
    (roomCodes (createRoom rooms roomCode hostSocketId hostNickname now)).Nodup := by
  have hnin : roomCode ∉ roomCodes rooms := (getRoom_eq_none _ _).mp hfresh
  simp only [createRoom, roomCodes, List.map_append, List.map_cons, List.map_nil, newRoom]
  simp only [List.nodup_append, List.nodup_cons, List.nodup_nil]
  refine ⟨hnd, by simp, ?_⟩
  intro x hx hx'
  simp only [List.mem_cons, List.not_mem_nil, or_false] at hx'
  subst hx'
  exact hnin hx

theorem registryWF_createRoom (rooms : List Room)
    (roomCode hostSocketId hostNickname : String) (now : ℚ)
    (h : RegistryWF rooms) (hfresh : getRoom rooms roomCode = none) :
    RegistryWF (createRoom rooms roomCode hostSocketId hostNickname now) := by
  obtain ⟨hnd, hmem⟩ := h
  refine ⟨nodup_roomCodes_createRoom rooms roomCode hostSocketId hostNickname now hnd hfresh, ?_⟩
  intro room hroom
  simp only [createRoom, List.mem_append, List.mem_singleton] at hroom
  rcases hroom with hroom | rfl
  · exact hmem room hroom
  · exact membersWF_newRoom roomCode hostSocketId hostNickname now

theorem registryWF_joinRoom (rooms : List Room) (roomCode socketId nickname : String)
    (h : RegistryWF rooms) : RegistryWF (joinRoom rooms roomCode socketId nickname).2 := by
  obtain ⟨hnd, hmem⟩ := h
  unfold joinRoom
  cases hg : getRoom rooms roomCode with
  | none => exact ⟨hnd, hmem⟩
  | some room =>
    by_cases hfull : room.participants.length ≥ MAX_PARTICIPANTS
    · simp only [if_pos hfull]
      exact ⟨hnd, hmem⟩
    · simp only [if_neg hfull]
      constructor
      · rw [roomCodes_updateRoom]
        · exact hnd
        · intro r _
          rfl
      · intro r' hr'
        rcases mem_updateRoom hr' with hr' | ⟨room', hg', rfl⟩
        · exact hmem r' hr'
        · exact membersWF_setParticipant room' _ (hmem room' (getRoom_mem hg'))

theorem registryWF_leaveRoom (rooms : List Room) (roomCode socketId : String)
    (h : RegistryWF rooms) : RegistryWF (leaveRoom rooms roomCode socketId).2 := by
  obtain ⟨hnd, hmem⟩ := h
  unfold leaveRoom
  cases hg : getRoom rooms roomCode with
  | none => exact ⟨hnd, hmem⟩
  | some room =>
    by_cases hhost : socketId = room.hostSocketId
    · simp only [if_pos hhost]
      cases hr : removeParticipant room.participants socketId with
      | nil =>
        exact ⟨nodup_roomCodes_removeRoom _ hnd,
          fun r' hr' => hmem r' (mem_removeRoom hr')⟩
      | cons newHost rest =>
        constructor
        · rw [roomCodes_updateRoom]
          · exact hnd
          · intro r hcode
            show room.roomCode = r.roomCode
            rw [getRoom_roomCode hg, hcode]
        · intro r' hr'
          rcases mem_updateRoom hr' with hr' | ⟨room', hg', rfl⟩
          · exact hmem r' hr'
          · rw [hhost] at hr
            exact membersWF_promote room newHost rest (hmem room (getRoom_mem hg)) hr
    · simp only [if_neg hhost]
      constructor
      · rw [roomCodes_updateRoom]
        · exact hnd
        · intro r hcode
          show room.roomCode = r.roomCode
          rw [getRoom_roomCode hg, hcode]
      · intro r' hr'
        rcases mem_updateRoom hr' with hr' | ⟨room', hg', rfl⟩
        · exact hmem r' hr'
        · exact membersWF_removeParticipant room socketId (hmem room (getRoom_mem hg)) hhost

theorem registryWF_step {s s' : List Room} (h : RegistryWF s) (hs : RegistryStep s s') :
    RegistryWF s' := by
  cases hs with
  | create roomCode hostSocketId hostNickname now hfresh =>
    exact registryWF_createRoom s roomCode hostSocketId hostNickname now h hfresh
  | join roomCode socketId nickname =>
    exact registryWF_joinRoom s roomCode socketId nickname h
  | leave roomCode socketId =>
    exact registryWF_leaveRoom s roomCode socketId h

theorem reachable_registryWF {s : List Room} (h : Reachable s) : RegistryWF s := by
  induction h with
  | init => exact ⟨by simp [roomCodes], by simp⟩
  | step _ hs ih => exact registryWF_step ih hs

theorem registryHostWF_createRoom (rooms : List Room)
    (roomCode hostSocketId hostNickname : String) (now : ℚ)
    (h : RegistryHostWF rooms) (hfresh : getRoom rooms roomCode = none) :
    RegistryHostWF (createRoom rooms roomCode hostSocketId hostNickname now) := by
  obtain ⟨hnd, hmem⟩ := h
  refine ⟨nodup_roomCodes_createRoom rooms roomCode hostSocketId hostNickname now hnd hfresh, ?_⟩
  intro room hroom
  simp only [createRoom, List.mem_append, List.mem_singleton] at hroom
  rcases hroom with hroom | rfl
  · exact hmem room hroom
  · exact ⟨membersWF_newRoom roomCode hostSocketId hostNickname now,
      hostFlagWF_newRoom roomCode hostSocketId hostNickname now⟩

theorem registryHostWF_joinRoom (rooms : List Room) (roomCode socketId nickname : String)
    (h : RegistryHostWF rooms)
    (hnothost : ∀ room, getRoom rooms roomCode = some room →
      ¬ socketId = room.hostSocketId) :
    RegistryHostWF (joinRoom rooms roomCode socketId nickname).2 := by
  obtain ⟨hnd, hmem⟩ := h
  unfold joinRoom
  cases hg : getRoom rooms roomCode with
  | none => exact ⟨hnd, hmem⟩
  | some room =>
    by_cases hfull : room.participants.length ≥ MAX_PARTICIPANTS
    · simp only [if_pos hfull]
      exact ⟨hnd, hmem⟩
    · simp only [if_neg hfull]
      constructor
      · rw [roomCodes_updateRoom]
        · exact hnd
        · intro r _
          rfl
      · intro r' hr'
        rcases mem_updateRoom hr' with hr' | ⟨room', hg', rfl⟩
        · exact hmem r' hr'
        · obtain ⟨hm', hf'⟩ := hmem room' (getRoom_mem hg')
          refine ⟨membersWF_setParticipant room' _ hm', ?_⟩
          exact hostFlagWF_setParticipant room' _ rfl (hnothost room' hg') hf'

theorem registryHostWF_leaveRoom (rooms : List Room) (roomCode socketId : String)
    (h : RegistryHostWF rooms) : RegistryHostWF (leaveRoom rooms roomCode socketId).2 := by
  obtain ⟨hnd, hmem⟩ := h
  unfold leaveRoom
  cases hg : getRoom rooms roomCode with
  | none => exact ⟨hnd, hmem⟩
  | some room =>
    by_cases hhost : socketId = room.hostSocketId
    · simp only [if_pos hhost]
      cases hr : removeParticipant room.participants socketId with
      | nil =>
        exact ⟨nodup_roomCodes_removeRoom _ hnd,
          fun r' hr' => hmem r' (mem_removeRoom hr')⟩
      | cons newHost rest =>
        constructor
        · rw [roomCodes_updateRoom]
          · exact hnd
          · intro r hcode
            show room.roomCode = r.roomCode
            rw [getRoom_roomCode hg, hcode]
        · intro r' hr'
          rcases mem_updateRoom hr' with hr' | ⟨room', hg', rfl⟩
          · exact hmem r' hr'
          · obtain ⟨hm', hf'⟩ := hmem room (getRoom_mem hg)
            rw [hhost] at hr
            exact ⟨membersWF_promote room newHost rest hm' hr,
              hostFlagWF_promote room newHost rest hm' hf' hr⟩
    · simp only [if_neg hhost]
      constructor
      · rw [roomCodes_updateRoom]
        · exact hnd
        · intro r hcode
          show room.roomCode = r.roomCode
          rw [getRoom_roomCode hg, hcode]
      · intro r' hr'
        rcases mem_updateRoom hr' with hr' | ⟨room', hg', rfl⟩
        · exact hmem r' hr'
        · obtain ⟨hm', hf'⟩ := hmem room (getRoom_mem hg)
          exact ⟨membersWF_removeParticipant room socketId hm' hhost,
            hostFlagWF_removeParticipant room socketId hf'⟩

theorem registryHostWF_step {s s' : List Room} (h : RegistryHostWF s)
    (hs : SafeStep s s') : RegistryHostWF s' := by
  cases hs with
  | create roomCode hostSocketId hostNickname now hfresh =>
    exact registryHostWF_createRoom s roomCode hostSocketId hostNickname now h hfresh
  | join roomCode socketId nickname hnothost =>
    exact registryHostWF_joinRoom s roomCode socketId nickname h hnothost
  | leave roomCode socketId =>
    exact registryHostWF_leaveRoom s roomCode socketId h

theorem safeReachable_registryHostWF {s : List Room} (h : SafeReachable s) :
    RegistryHostWF s := by
  induction h with
  | init => exact ⟨by simp [roomCodes], by simp⟩
  | step _ hs ih => exact registryHostWF_step ih hs

theorem filter_isHost_length_eq_one (ps : List Participant) (host : String)
    (hnd : (participantIds ps).Nodup) (hmem : host ∈ participantIds ps)
    (hflag : ∀ p ∈ ps, (p.isHost = true ↔ p.socketId = host)) :
    (ps.filter (fun p => p.isHost)).length = 1 := by
  induction ps with
  | nil => simp [participantIds] at hmem
  | cons q qs ih =>
    rw [participantIds_cons] at hnd hmem
    rw [List.nodup_cons] at hnd
    rw [List.mem_cons] at hmem
    by_cases hq : q.isHost = true
    · have hqh : q.socketId = host := (hflag q (List.mem_cons_self _ _)).mp hq
      have hnone : qs.filter (fun p => p.isHost) = [] := by
        rw [List.filter_eq_nil]
        intro p hp hpb
        have hph : p.socketId = host := (hflag p (List.mem_cons_of_mem _ hp)).mp hpb
        have hpm : p.socketId ∈ participantIds qs := List.mem_map_of_mem _ hp
        rw [hph, ← hqh] at hpm
        exact hnd.1 hpm
      rw [List.filter_cons_of_pos hq, hnone]
      rfl
    · have hqf : ¬ q.socketId = host :=
        fun he => hq ((hflag q (List.mem_cons_self _ _)).mpr he)
      rcases hmem with he | hmem'
      · exact absurd he.symm hqf
      · rw [List.filter_cons_of_neg (by simpa using hq)]
        exact ih hnd.2 hmem' (fun p hp => hflag p (List.mem_cons_of_mem _ hp))

/-- C1 (amended): after every sequence of `createRoom`, `joinRoom` and
`leaveRoom` operations in which no join carries a socket id equal to the
target room's current host id, every room in the registry has exactly one
participant record with `isHost = true`, and any record flagged as host
carries the room's `hostSocketId`.  (The restriction is forced: a join that
reuses the host's id overwrites the host's record with `isHost := false`,
see the counterexample.) -/
theorem single_host_invariant (s : List Room) (hreach : SafeReachable s) :
    ∀ room ∈ s, (room.participants.filter (fun p => p.isHost)).length = 1 ∧
      ∀ p ∈ room.participants, p.isHost = true → p.socketId = room.hostSocketId := by
  intro room hroom
  obtain ⟨-, hwf⟩ := safeReachable_registryHostWF hreach
  obtain ⟨hm, hf⟩ := hwf room hroom
  refine ⟨filter_isHost_length_eq_one room.participants room.hostSocketId hm.1 hm.2 hf, ?_⟩
  intro p hp hb
  exact (hf p hp).mp hb

/-- Witness for `single_host_invariant`: a freshly created room has exactly
one host record. -/
theorem single_host_invariant_witness :
    ((newRoom "ROOM01" "hostA" "Host" 0).participants.filter (fun p => p.isHost)).length
      = 1 :=
  (single_host_invariant (createRoom [] "ROOM01" "hostA" "Host" 0)
    (SafeReachable.step SafeReachable.init
      (SafeStep.create [] "ROOM01" "hostA" "Host" 0 rfl))
    (newRoom "ROOM01" "hostA" "Host" 0) (by decide)).1

/-- A registry reached by `createRoom` followed by a `joinRoom` that reused
the host's socket id. -/
def hostRejoinRooms : List Room :=
  (joinRoom (createRoom [] "ROOM01" "hostA" "Host" 0) "ROOM01" "hostA" "Guest").2

/-- The single room stored in `hostRejoinRooms`: its only participant record
carries the host's socket id but `isHost = false`. -/
def hostRejoinRoom : Room :=
  { roomCode := "ROOM01"
    hostSocketId := "hostA"
    participants := [⟨"hostA", "Guest", false⟩]
    controlMode := "host-only"
    playbackState := { playbackTime := 0, isPlaying := false,
                       lastUpdateTimestamp := 0, playbackRate := 1 }
    createdAt := 0 }

/-- C1 counterexample: the registry `hostRejoinRooms` is reachable (create,
then a join reusing the host id `hostA`), its room has one member, yet zero
participant records carry `isHost = true` — `joinRoom` overwrote the host's
record with `isHost := false`. -/
theorem single_host_counterexample :
    Reachable hostRejoinRooms ∧
    hostRejoinRooms = [hostRejoinRoom] ∧
    hostRejoinRoom.participants ≠ [] ∧
    (hostRejoinRoom.participants.filter (fun p => p.isHost)).length = 0 := by
  refine ⟨?_, by decide, by decide, by decide⟩
  exact Reachable.step
    (Reachable.step Reachable.init (RegistryStep.create [] "ROOM01" "hostA" "Host" 0 rfl))
    (RegistryStep.join (createRoom [] "ROOM01" "hostA" "Host" 0) "ROOM01" "hostA" "Guest")

theorem leaveRoom_roomDeleted {rooms : List Room} {roomCode socketId : String}
    (h : (leaveRoom rooms roomCode socketId).1 = LeaveResult.roomDeleted) :
    (leaveRoom rooms roomCode socketId).2 = removeRoom rooms roomCode := by
  unfold leaveRoom at h ⊢
  cases hg : getRoom rooms roomCode with
  | none =>
    rw [hg] at h
    simp at h
  | some room =>
    rw [hg] at h
    by_cases hhost : socketId = room.hostSocketId
    · simp only [if_pos hhost] at h ⊢
      cases hr : removeParticipant room.participants socketId with
      | nil => simp
      | cons newHost rest =>
        rw [hr] at h
        simp at h
    · simp only [if_neg hhost] at h
      simp at h

/-- C2: (i) no registry state reachable by `createRoom` / `joinRoom` /
`leaveRoom` operations contains a room with zero members; (ii) whenever
`leaveRoom` removes the last member of a room, the same `handleLeaveRoom`
call deletes the room from the registry and stops its periodic broadcast
task, so the interval map no longer holds the room's code.  The
duplicate-freeness hypotheses state what the JS `Map`s guarantee for their
keys. -/
theorem no_empty_rooms :
    (∀ s : List Room, Reachable s → ∀ room ∈ s, room.participants ≠ []) ∧
    (∀ (srv : ServerState) (room : Room) (socketId : String),
      (roomCodes srv.rooms).Nodup → (intervalCodes srv.sync).Nodup →
      getRoomBySocketId srv.rooms socketId = some room →
      (leaveRoom srv.rooms room.roomCode socketId).1 = LeaveResult.roomDeleted →
      getRoom (handleLeaveRoom srv socketId).rooms room.roomCode = none ∧
      lookupInterval (handleLeaveRoom srv socketId).sync.intervals room.roomCode = none) := by
  constructor
  · intro s hs room hroom
    obtain ⟨-, hwf⟩ := reachable_registryWF hs
    obtain ⟨-, hhost⟩ := hwf room hroom
    intro hnil
    rw [hnil] at hhost
    simp [participantIds] at hhost
  · intro srv room socketId hndrooms hndsync hget hdel
    have hrooms2 : (leaveRoom srv.rooms room.roomCode socketId).2
        = removeRoom srv.rooms room.roomCode := leaveRoom_roomDeleted hdel
    have hsrv : handleLeaveRoom srv socketId
        = { rooms := removeRoom srv.rooms room.roomCode,
            sync := stopSync srv.sync room.roomCode } := by
      simp only [handleLeaveRoom, hget, hdel, hrooms2]
    rw [hsrv]
    exact ⟨getRoom_removeRoom_self _ _ hndrooms, lookupInterval_stopSync _ _ hndsync⟩

/-- Witness for `no_empty_rooms`: the lone host of `ROOM01` leaves; the room
disappears from the registry in the same call and its broadcast task entry is
cleared. -/
theorem no_empty_rooms_witness :
    getRoom (handleLeaveRoom ⟨[newRoom "ROOM01" "hostA" "Host" 0],
        ⟨[("ROOM01", 3)], 4⟩⟩ "hostA").rooms "ROOM01" = none ∧
    lookupInterval (handleLeaveRoom ⟨[newRoom "ROOM01" "hostA" "Host" 0],
        ⟨[("ROOM01", 3)], 4⟩⟩ "hostA").sync.intervals "ROOM01" = none :=
  no_empty_rooms.2 ⟨[newRoom "ROOM01" "hostA" "Host" 0], ⟨[("ROOM01", 3)], 4⟩⟩
    (newRoom "ROOM01" "hostA" "Host" 0) "hostA"
    (by decide) (by decide) (by decide) (by decide)

end WatchTogether
